import Mathlib

/-!
Verification of the supervisor core of the `albert` process manager
(`main.go`), shallowly embedded in Lean 4.

The embedding mirrors the Go source:

* `AppConfig`, `AppState`, `Manager` mirror the structs; the Go
  `map[string]*AppState` is an association list with overwrite-on-insert
  (`mapSet`) and key lookup (`mapGet`); `*exec.Cmd` handles become `Option Nat`
  (a generation identifier standing for pointer identity); `time.Time` becomes
  `Nat`; the output buffer is a byte list (`List UInt8`).
* Blocking external effects become explicit inputs: `LaunchResult` is the
  outcome of the pipe setup and `cmd.Start()` in `StartApp`; the `killErr`
  argument of `stopApp` is the outcome of `Process.Kill()` in `StopApp`;
  `ProbeResult` is the outcome of the HTTP GET in `CheckAppHealth`; `now` is
  the clock read.
* The background goroutines become atomic steps on the shared state, which is
  sound because every mutation in the source happens under the single
  manager-wide mutex: `onProcessExit` is the body of the exit-waiter goroutine
  of `StartApp`, `writeChunk` is one buffer append of the output-reader
  goroutine, and `runHealthTick` is one iteration of the `RunHealthChecks`
  ticker loop.
* Functions that issue HTTP requests additionally return the list of URLs
  they fetched, so that "no network call is made" is expressible.
-/

structure AppConfig where
  name : String
  path : String
  args : List String
  healthURL : String
deriving DecidableEq

/-- Runtime state of one managed app (`AppState` in the source). `cmd` models
the `Cmd *exec.Cmd` field: `none` is the nil pointer, `some h` a live handle
with identity `h`. The output channel is not modelled (no claim concerns it). -/
structure AppState where
  config : AppConfig
  cmd : Option Nat
  running : Bool
  healthStatus : String
  healthLastCheck : Nat
  outputBuffer : List UInt8
deriving DecidableEq

/-- The manager's `apps map[string]*AppState`, as an association list with
distinct keys maintained by `mapSet`. -/
abbrev Manager := List (String × AppState)

/-- Map read `m.apps[appName]`. -/
def mapGet : Manager → String → Option AppState
  | [], _ => none
  | (k, v) :: rest, n => if n = k then some v else mapGet rest n

/-- Map write `m.apps[name] = v`: overwrites the binding if the key is
present, otherwise appends it. -/
def mapSet : Manager → String → AppState → Manager
  | [], k, v => [(k, v)]
  | (k', v') :: rest, k, v =>
    if k' = k then (k, v) :: rest else (k', v') :: mapSet rest k v

/-- The record `NewManager` creates for one config: `Running: false`,
`HealthStatus: "Unknown"`, a fresh empty output buffer, zero-valued
`HealthLastCheck`, nil `Cmd`. -/
def initialAppState (cfg : AppConfig) : AppState :=
  { config := cfg
    cmd := none
    running := false
    healthStatus := "Unknown"
    healthLastCheck := 0
    outputBuffer := [] }

/-- `NewManager`: folds the config list into the map, one assignment
`m.apps[cfg.Name] = ...` per config. -/
def newManager (configs : List AppConfig) : Manager :=
  configs.foldl (fun m cfg => mapSet m cfg.name (initialAppState cfg)) []

/-- Outcome of the launch sequence of `StartApp`: the two pipe setups and
`cmd.Start()` can each fail; on success the OS hands back a process, modelled
by a fresh handle identity. -/
inductive LaunchResult
  | stdoutPipeErr (msg : String)
  | stderrPipeErr (msg : String)
  | startErr (msg : String)
  | ok (handle : Nat)
deriving DecidableEq

/-- The error values `StartApp`/`StopApp` build with `fmt.Errorf`,
distinguished by the branch that produced them. -/
inductive AppError
  | notFound (name : String)
  | alreadyRunning (name : String)
  | stdoutPipeFailed (name msg : String)
  | stderrPipeFailed (name msg : String)
  | startFailed (name msg : String)
  | notRunning (name : String)
  | killFailed (name msg : String)
deriving DecidableEq

/-- `StartApp`: not-found and already-running checks, then the launch
sequence; on success stores the new handle, sets `Running = true` and resets
the output buffer (`app.OutputBuffer.Reset()`). Returns the post-call state
together with the error returned to the caller (`none` = success). -/
def startApp (m : Manager) (appName : String) (launch : LaunchResult) :
    Manager × Option AppError :=
  match mapGet m appName with
  | none => (m, some (.notFound appName))
  | some app =>
    if app.running then (m, some (.alreadyRunning appName))
    else
      match launch with
      | .stdoutPipeErr e => (m, some (.stdoutPipeFailed appName e))
      | .stderrPipeErr e => (m, some (.stderrPipeFailed appName e))
      | .startErr e => (m, some (.startFailed appName e))
      | .ok h =>
        (mapSet m appName
          { app with cmd := some h, running := true, outputBuffer := [] },
         none)

/-- `StopApp`: not-found check, then `!app.Running || app.Cmd == nil ||
app.Cmd.Process == nil` (a stored handle always has a started process here,
so the last two collapse to `cmd = none`), then `Process.Kill()` whose
outcome is the `killErr` input; on successful kill sets `Running = false`,
`HealthStatus = "Stopped"` and clears the handle. -/
def stopApp (m : Manager) (appName : String) (killErr : Option String) :
    Manager × Option AppError :=
  match mapGet m appName with
  | none => (m, some (.notFound appName))
  | some app =>
    if app.running = false ∨ app.cmd = none then (m, some (.notRunning appName))
    else
      match killErr with
      | some e => (m, some (.killFailed appName e))
      | none =>
        (mapSet m appName
          { app with running := false, healthStatus := "Stopped", cmd := none },
         none)

/-- Body of the exit-waiter goroutine spawned by `StartApp`, run when
`cmd.Wait()` returns: under the lock, if the record's current handle still
equals the handle this waiter tracks (`app.Cmd == cmd`), mark the app not
running, clear the handle and record `"Stopped"` on a clean exit or
`"Exited: <cause>"` when `Wait` returned an error; otherwise write nothing. -/
def onProcessExit (m : Manager) (appName : String) (cmd : Nat)
    (exitErr : Option String) : Manager :=
  match mapGet m appName with
  | none => m
  | some app =>
    if app.cmd = some cmd then
      mapSet m appName
        { app with
          running := false
          cmd := none
          healthStatus :=
            (match exitErr with
             | some e => "Exited: " ++ e
             | none => "Stopped") }
    else m

/-- Outcome of the HTTP GET of `CheckAppHealth`: a transport/timeout error
with its message, or a response with its status code. -/
inductive ProbeResult
  | fail (msg : String)
  | resp (statusCode : Nat)
deriving DecidableEq

/-- `CheckAppHealth`: empty `HealthURL` yields `"N/A"`; otherwise the GET's
outcome is classified (`"Error: <message>"`, `"Healthy"` for 200,
`"Degraded (<code>)"` otherwise); every path stamps `HealthLastCheck`. The
second component lists the URLs actually fetched ([] or the health URL). -/
def checkAppHealth (app : AppState) (result : ProbeResult) (now : Nat) :
    AppState × List String :=
  if app.config.healthURL = "" then
    ({ app with healthStatus := "N/A", healthLastCheck := now }, [])
  else
    match result with
    | .fail msg =>
      ({ app with healthLastCheck := now, healthStatus := "Error: " ++ msg },
       [app.config.healthURL])
    | .resp code =>
      ({ app with
          healthLastCheck := now
          healthStatus :=
            (if code = 200 then "Healthy"
             else "Degraded (" ++ toString code ++ ")") },
       [app.config.healthURL])

/-- One iteration step of the per-app loop in `RunHealthChecks`: a running
app gets a health check, a non-running app gets `HealthStatus = "Stopped"`
and a fresh timestamp with no request issued. The accumulator carries the
manager state and the URLs fetched so far; `probe` is the network's answer
for each URL. -/
def healthTickStep (probe : String → ProbeResult) (now : Nat)
    (acc : Manager × List String) (entry : String × AppState) :
    Manager × List String :=
  if entry.2.running then
    let r := checkAppHealth entry.2 (probe entry.2.config.healthURL) now
    (mapSet acc.1 entry.1 r.1, acc.2 ++ r.2)
  else
    (mapSet acc.1 entry.1
      { entry.2 with healthStatus := "Stopped", healthLastCheck := now },
     acc.2)

/-- One tick of `RunHealthChecks`: snapshot the records, then run
`healthTickStep` for each. Each entry holds its own key, so processing the
snapshot value of each record coincides with the source's in-place updates. -/
def runHealthTick (m : Manager) (probe : String → ProbeResult) (now : Nat) :
    Manager × List String :=
  m.foldl (healthTickStep probe now) (m, [])

/-- One buffer append of the output-reader goroutine: `WriteString`, then if
the length exceeds 4096 trim to `Bytes()[Len()-2048:]`, the trailing 2048
bytes. -/
def writeChunk (buf chunk : List UInt8) : List UInt8 :=
  let b := buf ++ chunk
  if 4096 < b.length then b.drop (b.length - 2048) else b

/-- `bytes.Split(output, "\n")` specialised to the newline byte 10. -/
def splitLines : List UInt8 → List (List UInt8)
  | [] => [[]]
  | b :: rest =>
    match splitLines rest with
    | [] => [[]]
    | p :: ps => if b = 10 then [] :: p :: ps else (b :: p) :: ps

/-- `bytes.Join(pieces, "\n")`. -/
def joinLines : List (List UInt8) → List UInt8
  | [] => []
  | [p] => p
  | p :: q :: ps => p ++ 10 :: joinLines (q :: ps)

/-- Body of `getAppOutputHandler` after the buffer read: split the buffer
content on newline, keep the trailing slice of at most 50 pieces, join back
with newlines. -/
def getAppOutput (output : List UInt8) : List UInt8 :=
  let lines := splitLines output
  let numLines := lines.length
  let start := if numLines > 50 then numLines - 50 else 0
  joinLines (lines.drop start)

/-! ## Helper lemmas on the map and on line splitting -/

theorem mapGet_mapSet_self (m : Manager) (k : String) (v : AppState) :
    mapGet (mapSet m k v) k = some v := by
  induction m with
  | nil => simp [mapGet, mapSet]
  | cons e rest ih =>
    obtain ⟨k', v'⟩ := e
    by_cases h : k' = k
    · subst h
      simp [mapGet, mapSet]
    · simp [mapGet, mapSet, h, Ne.symm h, ih]

theorem mapGet_mapSet_ne (m : Manager) (k n : String) (v : AppState)
    (h : n ≠ k) : mapGet (mapSet m k v) n = mapGet m n := by
  induction m with
  | nil => simp [mapGet, mapSet, h]
  | cons e rest ih =>
    obtain ⟨k', v'⟩ := e
    by_cases hk : k' = k
    · subst hk
      simp [mapGet, mapSet, h]
    · by_cases hn : n = k'
      · subst hn
        simp [mapGet, mapSet, hk]
      · simp [mapGet, mapSet, hk, hn, ih]

theorem splitLines_ne_nil (l : List UInt8) : splitLines l ≠ [] := by
  cases l with
  | nil => simp [splitLines]
  | cons b rest =>
    simp only [splitLines]
    cases h : splitLines rest with
    | nil => simp
    | cons p ps =>
      by_cases hb : b = 10 <;> simp [hb]

theorem newline_not_mem_splitLines (l : List UInt8) :
    ∀ p ∈ splitLines l, (10 : UInt8) ∉ p := by
  induction l with
  | nil =>
    intro p hp
    simp [splitLines] at hp
    simp [hp]
  | cons b rest ih =>
    intro p hp
    simp only [splitLines] at hp
    cases h : splitLines rest with
    | nil => exact absurd h (splitLines_ne_nil rest)
    | cons q qs =>
      rw [h] at hp
      have ihq : (10 : UInt8) ∉ q := ih q (by rw [h]; exact List.mem_cons_self q qs)
      by_cases hb : b = 10
      · simp [hb] at hp
        rcases hp with hp | hp | hp
        · simp [hp]
        · subst hp; exact ihq
        · exact ih p (by rw [h]; exact List.mem_cons_of_mem q hp)
      · simp [hb] at hp
        rcases hp with hp | hp
        · subst hp
          intro hmem
          rcases List.mem_cons.mp hmem with hb10 | hq
          · exact hb hb10.symm
          · exact ihq hq
        · exact ih p (by rw [h]; exact List.mem_cons_of_mem q hp)

theorem splitLines_append_newline (p l : List UInt8) (hp : (10 : UInt8) ∉ p) :
    splitLines (p ++ 10 :: l) = p :: splitLines l := by
  induction p with
  | nil =>
    simp only [List.nil_append, splitLines]
    cases h : splitLines l with
    | nil => exact absurd h (splitLines_ne_nil l)
    | cons q qs => simp
  | cons b p₁ ih =>
    have hb : b ≠ 10 := by
      intro hb; exact hp (by simp [hb])
    have hp₁ : (10 : UInt8) ∉ p₁ := fun hmem => hp (List.mem_cons_of_mem b hmem)
    simp only [List.cons_append, splitLines, List.append_eq]
    rw [ih hp₁]
    simp [hb]

theorem splitLines_of_not_newline (p : List UInt8) (hp : (10 : UInt8) ∉ p) :
    splitLines p = [p] := by
  induction p with
  | nil => simp [splitLines]
  | cons b p₁ ih =>
    have hb : b ≠ 10 := by
      intro hb; exact hp (by simp [hb])
    have hp₁ : (10 : UInt8) ∉ p₁ := fun hmem => hp (List.mem_cons_of_mem b hmem)
    simp only [splitLines, ih hp₁]
    simp [hb]

theorem splitLines_joinLines (ps : List (List UInt8)) (hne : ps ≠ [])
    (hnl : ∀ p ∈ ps, (10 : UInt8) ∉ p) : splitLines (joinLines ps) = ps := by
  induction ps with
  | nil => exact absurd rfl hne
  | cons p qs ih =>
    cases qs with
    | nil =>
      simp only [joinLines]
      exact splitLines_of_not_newline p (hnl p (List.mem_cons_self p []))
    | cons q qs' =>
      simp only [joinLines]
      rw [splitLines_append_newline p _ (hnl p (List.mem_cons_self p _))]
      rw [ih (by simp) (fun r hr => hnl r (List.mem_cons_of_mem p hr))]

/-- The URLs one health tick fetches: each running app with a configured URL
contributes its GET; non-running apps contribute nothing. -/
def tickCalls (probe : String → ProbeResult) (now : Nat) :
    List (String × AppState) → List String
  | [] => []
  | e :: rest =>
    (if e.2.running then (checkAppHealth e.2 (probe e.2.config.healthURL) now).2
     else []) ++ tickCalls probe now rest

theorem healthTickStep_fst (probe : String → ProbeResult) (now : Nat)
    (acc : Manager × List String) (e : String × AppState) :
    (healthTickStep probe now acc e).1 =
      mapSet acc.1 e.1
        (if e.2.running then (checkAppHealth e.2 (probe e.2.config.healthURL) now).1
         else { e.2 with healthStatus := "Stopped", healthLastCheck := now }) := by
  by_cases h : e.2.running <;> simp [healthTickStep, h]

theorem healthTickStep_snd (probe : String → ProbeResult) (now : Nat)
    (acc : Manager × List String) (e : String × AppState) :
    (healthTickStep probe now acc e).2 =
      acc.2 ++
        (if e.2.running then (checkAppHealth e.2 (probe e.2.config.healthURL) now).2
         else []) := by
  by_cases h : e.2.running <;> simp [healthTickStep, h]

theorem tickFold_not_mem (probe : String → ProbeResult) (now : Nat) :
    ∀ (l : List (String × AppState)) (acc : Manager × List String) (k : String),
      k ∉ l.map Prod.fst →
      mapGet (l.foldl (healthTickStep probe now) acc).1 k = mapGet acc.1 k := by
  intro l
  induction l with
  | nil => intro acc k _; rfl
  | cons e rest ih =>
    intro acc k hk
    simp only [List.map_cons, List.mem_cons] at hk
    push_neg at hk
    obtain ⟨hk1, hk2⟩ := hk
    rw [List.foldl_cons, ih _ k hk2, healthTickStep_fst]
    exact mapGet_mapSet_ne _ _ _ _ hk1

theorem tickFold_mem (probe : String → ProbeResult) (now : Nat) :
    ∀ (l : List (String × AppState)) (acc : Manager × List String)
      (name : String) (app : AppState),
      (l.map Prod.fst).Nodup → (name, app) ∈ l →
      mapGet (l.foldl (healthTickStep probe now) acc).1 name =
        some (if app.running then (checkAppHealth app (probe app.config.healthURL) now).1
              else { app with healthStatus := "Stopped", healthLastCheck := now }) := by
  intro l
  induction l with
  | nil => intro acc name app _ hmem; exact absurd hmem (List.not_mem_nil _)
  | cons e rest ih =>
    intro acc name app hnd hmem
    obtain ⟨k, a⟩ := e
    simp only [List.map_cons, List.nodup_cons] at hnd
    obtain ⟨hnotin, hnd'⟩ := hnd
    rw [List.foldl_cons]
    rcases List.mem_cons.mp hmem with heq | hmem'
    · injection heq with h1 h2
      subst h1
      subst h2
      rw [tickFold_not_mem probe now rest _ name hnotin, healthTickStep_fst]
      exact mapGet_mapSet_self _ _ _
    · exact ih _ name app hnd' hmem'

theorem tickFold_calls (probe : String → ProbeResult) (now : Nat) :
    ∀ (l : List (String × AppState)) (acc : Manager × List String),
      (l.foldl (healthTickStep probe now) acc).2 = acc.2 ++ tickCalls probe now l := by
  intro l
  induction l with
  | nil => intro acc; simp [tickCalls]
  | cons e rest ih =>
    intro acc
    rw [List.foldl_cons, ih, healthTickStep_snd]
    simp [tickCalls, List.append_assoc]

theorem mapGet_newManagerFold (name : String) :
    ∀ (configs : List AppConfig) (m : Manager),
      mapGet (configs.foldl (fun acc cfg => mapSet acc cfg.name (initialAppState cfg)) m) name =
        ((configs.reverse.find? (fun c => c.name == name)).map initialAppState).or
          (mapGet m name) := by
  intro configs
  induction configs with
  | nil => intro m; simp
  | cons cfg rest ih =>
    intro m
    rw [List.foldl_cons, ih, List.reverse_cons, List.find?_append]
    cases hf : rest.reverse.find? (fun c => c.name == name) with
    | some c => simp [Option.or]
    | none =>
      by_cases hn : cfg.name = name
      · subst hn
        simp [List.find?, mapGet_mapSet_self, Option.or]
      · have hfc : (cfg.name == name) = false := by simp [hn]
        simp [List.find?, hfc, mapGet_mapSet_ne _ _ _ _ (Ne.symm hn), Option.or]

/-! ## Concrete fixtures used by witnesses and counterexamples -/

def cfgA : AppConfig :=
  { name := "a"
    path := "/home/tommy/appa/appa"
    args := ["--port", "7000"]
    healthURL := "http://127.0.0.1:7000/health" }

def cfgB : AppConfig :=
  { name := "b"
    path := "/home/tommy/appb/appb"
    args := []
    healthURL := "" }

def appRunning : AppState :=
  { config := cfgA
    cmd := some 1
    running := true
    healthStatus := "Healthy"
    healthLastCheck := 5
    outputBuffer := [] }

def appStopped : AppState :=
  { config := cfgB
    cmd := none
    running := false
    healthStatus := "Stopped"
    healthLastCheck := 5
    outputBuffer := [] }

/-- A manager with one running app `"a"` (handle 1) and one stopped app `"b"`. -/
def mRun : Manager := [("a", appRunning), ("b", appStopped)]

/-- App `"a"` after a Stop and an immediate new Start: handle replaced by 2. -/
def appRestarted : AppState := { appRunning with cmd := some 2 }

def mRestarted : Manager := [("a", appRestarted)]

def probeOK : String → ProbeResult := fun _ => ProbeResult.resp 200

def cfgDup1 : AppConfig :=
  { name := "a", path := "/bin/one", args := [], healthURL := "" }

def cfgDup2 : AppConfig :=
  { name := "a", path := "/bin/two", args := [], healthURL := "" }

/-- 60 one-byte lines joined by newlines. -/
def output60 : List UInt8 := joinLines (List.replicate 60 [97])

/-! ## Claim theorems -/

/-- C1: for every app name, Start fails with NotFound when the name is not in
the manager's map, fails with AlreadyRunning when the record's running flag is
true, and otherwise, on successful spawn, sets running to true, stores the new
process handle, and resets the output buffer to empty before returning
success. -/
theorem startApp_contract (m : Manager) (name : String) (lr : LaunchResult) :
    (mapGet m name = none → startApp m name lr = (m, some (AppError.notFound name))) ∧
    (∀ app, mapGet m name = some app → app.running = true →
      startApp m name lr = (m, some (AppError.alreadyRunning name))) ∧
    (∀ app hd, mapGet m name = some app → app.running = false →
      lr = LaunchResult.ok hd →
      (startApp m name lr).2 = none ∧
      mapGet (startApp m name lr).1 name =
        some { app with cmd := some hd, running := true, outputBuffer := [] }) := by
  refine ⟨?_, ?_, ?_⟩
  · intro h
    simp [startApp, h]
  · intro app hget hrun
    simp [startApp, hget, hrun]
  · intro app hd hget hrun hlr
    subst hlr
    simp [startApp, hget, hrun, mapGet_mapSet_self]

/-- Witness for C1 on the concrete manager `mRun`: unknown name, running app,
and successful start of the stopped app. -/
theorem startApp_contract_witness :
    startApp mRun "zzz" (LaunchResult.ok 7) = (mRun, some (AppError.notFound "zzz")) ∧
    startApp mRun "a" (LaunchResult.ok 7) = (mRun, some (AppError.alreadyRunning "a")) ∧
    (startApp mRun "b" (LaunchResult.ok 7)).2 = none ∧
    mapGet (startApp mRun "b" (LaunchResult.ok 7)).1 "b" =
      some { appStopped with cmd := some 7, running := true, outputBuffer := [] } := by
  refine ⟨?_, ?_, ?_, ?_⟩
  · exact (startApp_contract mRun "zzz" (LaunchResult.ok 7)).1 (by decide)
  · exact (startApp_contract mRun "a" (LaunchResult.ok 7)).2.1 appRunning (by decide) (by decide)
  · exact ((startApp_contract mRun "b" (LaunchResult.ok 7)).2.2 appStopped 7 (by decide) (by decide) rfl).1
  · exact ((startApp_contract mRun "b" (LaunchResult.ok 7)).2.2 appStopped 7 (by decide) (by decide) rfl).2

/-- C10: a successful Start replaces exactly the record's handle, running flag
and output buffer (the whole post-state is that single record update), so
healthStatus and healthLastCheck keep their previous values — a record that
was "Stopped" stays "Stopped" until a later health tick or exit event. -/
theorem startApp_frame (m : Manager) (name : String) (hd : Nat) (app : AppState)
    (hget : mapGet m name = some app) (hrun : app.running = false) :
    (startApp m name (LaunchResult.ok hd)).2 = none ∧
    (startApp m name (LaunchResult.ok hd)).1 =
      mapSet m name { app with cmd := some hd, running := true, outputBuffer := [] } ∧
    ∀ app', mapGet (startApp m name (LaunchResult.ok hd)).1 name = some app' →
      app'.healthStatus = app.healthStatus ∧
      app'.healthLastCheck = app.healthLastCheck ∧
      app'.config = app.config := by
  have h1 : (startApp m name (LaunchResult.ok hd)).1 =
      mapSet m name { app with cmd := some hd, running := true, outputBuffer := [] } := by
    simp [startApp, hget, hrun]
  have h2 : (startApp m name (LaunchResult.ok hd)).2 = none := by
    simp [startApp, hget, hrun]
  refine ⟨h2, h1, ?_⟩
  intro app' hget'
  rw [h1, mapGet_mapSet_self] at hget'
  obtain rfl := Option.some.inj hget'
  simp

/-- Witness for C10: restarting the stopped app `"b"` (whose status is
"Stopped") succeeds and keeps healthStatus "Stopped". -/
theorem startApp_frame_witness :
    (startApp mRun "b" (LaunchResult.ok 3)).2 = none ∧
    (startApp mRun "b" (LaunchResult.ok 3)).1 =
      mapSet mRun "b" { appStopped with cmd := some 3, running := true, outputBuffer := [] } ∧
    (mapGet (startApp mRun "b" (LaunchResult.ok 3)).1 "b").map AppState.healthStatus =
      some "Stopped" := by
  have h := startApp_frame mRun "b" 3 appStopped (by decide) (by decide)
  refine ⟨h.1, h.2.1, ?_⟩
  rw [h.2.1]
  decide

/-- C2 (amended): Stop fails with NotFound for unknown names, fails with
NotRunning when running is false or no handle is stored, and otherwise —
provided the kill signal is delivered successfully — synchronously sets
running to false, healthStatus to "Stopped", and clears the stored handle. -/
theorem stopApp_contract (m : Manager) (name : String) (kr : Option String) :
    (mapGet m name = none → stopApp m name kr = (m, some (AppError.notFound name))) ∧
    (∀ app, mapGet m name = some app → (app.running = false ∨ app.cmd = none) →
      stopApp m name kr = (m, some (AppError.notRunning name))) ∧
    (∀ app, mapGet m name = some app → app.running = true → app.cmd ≠ none →
      kr = none →
      (stopApp m name kr).2 = none ∧
      mapGet (stopApp m name kr).1 name =
        some { app with running := false, healthStatus := "Stopped", cmd := none }) := by
  refine ⟨?_, ?_, ?_⟩
  · intro h
    simp [stopApp, h]
  · intro app hget hcond
    simp [stopApp, hget, hcond]
  · intro app hget hrun hcmd hkr
    subst hkr
    have hcond : ¬(app.running = false ∨ app.cmd = none) := by
      push_neg
      exact ⟨by simp [hrun], hcmd⟩
    simp [stopApp, hget, hcond, mapGet_mapSet_self]

/-- Witness for C2: unknown name, stopped app, and successful stop of the
running app on the concrete manager `mRun`. -/
theorem stopApp_contract_witness :
    stopApp mRun "zzz" none = (mRun, some (AppError.notFound "zzz")) ∧
    stopApp mRun "b" none = (mRun, some (AppError.notRunning "b")) ∧
    (stopApp mRun "a" none).2 = none ∧
    mapGet (stopApp mRun "a" none).1 "a" =
      some { appRunning with running := false, healthStatus := "Stopped", cmd := none } := by
  refine ⟨?_, ?_, ?_, ?_⟩
  · exact (stopApp_contract mRun "zzz" none).1 (by decide)
  · exact (stopApp_contract mRun "b" none).2.1 appStopped (by decide) (Or.inl (by decide))
  · exact ((stopApp_contract mRun "a" none).2.2 appRunning (by decide) (by decide) (by decide) rfl).1
  · exact ((stopApp_contract mRun "a" none).2.2 appRunning (by decide) (by decide) (by decide) rfl).2

/-- Counterexample for C2 as stated: when `Process.Kill()` fails, Stop on a
running app with a live handle returns SignalFailure and does not set running
to false, does not set healthStatus to "Stopped", and does not clear the
handle. -/
theorem stopApp_killFailure_cex :
    (stopApp mRun "a" (some "operation not permitted")).2 =
      some (AppError.killFailed "a" "operation not permitted") ∧
    (mapGet (stopApp mRun "a" (some "operation not permitted")).1 "a").map
      AppState.running = some true ∧
    (mapGet (stopApp mRun "a" (some "operation not permitted")).1 "a").map
      AppState.healthStatus = some "Healthy" ∧
    (mapGet (stopApp mRun "a" (some "operation not permitted")).1 "a").map
      AppState.cmd = some (some 1) := by
  decide

/-- C3: when the exit-waiter observes termination, if the record's current
handle still equals the handle it tracks it sets running to false, clears the
handle and records "Stopped" on a clean exit or "Exited: <cause>" on an error
exit; if the handle has been replaced or cleared it writes nothing, leaving
the whole manager state untouched. -/
theorem onProcessExit_contract (m : Manager) (name : String) (tracked : Nat)
    (exitErr : Option String) (app : AppState) (hget : mapGet m name = some app) :
    (app.cmd = some tracked →
      onProcessExit m name tracked exitErr =
        mapSet m name
          { app with
            running := false
            cmd := none
            healthStatus :=
              (match exitErr with
               | some e => "Exited: " ++ e
               | none => "Stopped") }) ∧
    (app.cmd ≠ some tracked → onProcessExit m name tracked exitErr = m) := by
  constructor
  · intro hc
    simp [onProcessExit, hget, hc]
  · intro hc
    simp [onProcessExit, hget, hc]

/-- Witness for C3: the waiter tracking handle 1 updates `mRun` (whose app
`"a"` still holds handle 1) on an error exit, and performs no write on
`mRestarted` (where a newer Start installed handle 2). -/
theorem onProcessExit_contract_witness :
    onProcessExit mRun "a" 1 (some "exit status 1") =
      mapSet mRun "a"
        { appRunning with
          running := false
          cmd := none
          healthStatus := "Exited: " ++ "exit status 1" } ∧
    onProcessExit mRestarted "a" 1 none = mRestarted := by
  constructor
  · exact (onProcessExit_contract mRun "a" 1 (some "exit status 1") appRunning
      (by decide)).1 (by decide)
  · exact (onProcessExit_contract mRestarted "a" 1 none appRestarted
      (by decide)).2 (by decide)

/-- C4: one health probe classifies exactly as: empty URL yields "N/A";
HTTP 200 yields "Healthy"; any other status code yields "Degraded (<code>)";
a connection or timeout error yields "Error: <message>"; and in every outcome
healthLastCheck is set to the probe's completion time. -/
theorem checkAppHealth_contract (app : AppState) (r : ProbeResult) (now : Nat) :
    (checkAppHealth app r now).1.healthLastCheck = now ∧
    (app.config.healthURL = "" →
      (checkAppHealth app r now).1.healthStatus = "N/A" ∧
      (checkAppHealth app r now).2 = []) ∧
    (app.config.healthURL ≠ "" →
      (∀ msg, r = ProbeResult.fail msg →
        (checkAppHealth app r now).1.healthStatus = "Error: " ++ msg) ∧
      (r = ProbeResult.resp 200 →
        (checkAppHealth app r now).1.healthStatus = "Healthy") ∧
      (∀ code, r = ProbeResult.resp code → code ≠ 200 →
        (checkAppHealth app r now).1.healthStatus =
          "Degraded (" ++ toString code ++ ")")) := by
  refine ⟨?_, ?_, ?_⟩
  · by_cases h : app.config.healthURL = ""
    · simp [checkAppHealth, h]
    · cases r <;> simp [checkAppHealth, h]
  · intro h
    simp [checkAppHealth, h]
  · intro h
    refine ⟨?_, ?_, ?_⟩
    · intro msg hr
      subst hr
      simp [checkAppHealth, h]
    · intro hr
      subst hr
      simp [checkAppHealth, h]
    · intro code hr hcode
      subst hr
      simp [checkAppHealth, h, hcode]

/-- Witness for C4: no-URL app yields "N/A" with no request; 200 yields
"Healthy"; 503 yields "Degraded (503)"; a refused connection yields an
"Error: "-prefixed status; the timestamp is always stamped. -/
theorem checkAppHealth_contract_witness :
    (checkAppHealth appStopped (ProbeResult.resp 200) 9).1.healthStatus = "N/A" ∧
    (checkAppHealth appStopped (ProbeResult.resp 200) 9).2 = [] ∧
    (checkAppHealth appRunning (ProbeResult.resp 200) 9).1.healthStatus = "Healthy" ∧
    (checkAppHealth appRunning (ProbeResult.resp 503) 9).1.healthStatus =
      "Degraded (" ++ toString (503 : Nat) ++ ")" ∧
    (checkAppHealth appRunning (ProbeResult.fail "connection refused") 9).1.healthStatus =
      "Error: " ++ "connection refused" ∧
    (checkAppHealth appRunning (ProbeResult.fail "connection refused") 9).1.healthLastCheck = 9 := by
  refine ⟨?_, ?_, ?_, ?_, ?_, ?_⟩
  · exact ((checkAppHealth_contract appStopped (ProbeResult.resp 200) 9).2.1 (by decide)).1
  · exact ((checkAppHealth_contract appStopped (ProbeResult.resp 200) 9).2.1 (by decide)).2
  · exact ((checkAppHealth_contract appRunning (ProbeResult.resp 200) 9).2.2 (by decide)).2.1 rfl
  · exact ((checkAppHealth_contract appRunning (ProbeResult.resp 503) 9).2.2 (by decide)).2.2
      503 rfl (by decide)
  · exact ((checkAppHealth_contract appRunning (ProbeResult.fail "connection refused") 9).2.2
      (by decide)).1 "connection refused" rfl
  · exact (checkAppHealth_contract appRunning (ProbeResult.fail "connection refused") 9).1

theorem writeChunk_length_le (buf chunk : List UInt8) :
    (writeChunk buf chunk).length ≤ 4096 := by
  simp only [writeChunk]
  split
  · simp only [List.length_drop]
    omega
  · omega

/-- C5: after any complete write step the buffer never exceeds the 4096-byte
cap, and any write that makes it exceed 4096 bytes is immediately trimmed to
its trailing 2048 bytes. -/
theorem outputBuffer_bounded (init : List UInt8) (hinit : init.length ≤ 4096)
    (chunks : List (List UInt8)) :
    (chunks.foldl writeChunk init).length ≤ 4096 ∧
    ∀ buf chunk : List UInt8, 4096 < (buf ++ chunk).length →
      writeChunk buf chunk = (buf ++ chunk).drop ((buf ++ chunk).length - 2048) ∧
      (writeChunk buf chunk).length = 2048 := by
  constructor
  · induction chunks generalizing init with
    | nil => exact hinit
    | cons c rest ih =>
      rw [List.foldl_cons]
      exact ih _ (writeChunk_length_le init c)
  · intro buf chunk h
    constructor
    · simp only [writeChunk, if_pos h]
    · simp only [writeChunk, if_pos h, List.length_drop]
      omega

/-- Witness for C5: folding two 3000-byte chunks into an empty buffer stays
within the 4096-byte cap. -/
theorem outputBuffer_bounded_witness :
    ([] : List UInt8).length ≤ 4096 ∧
    ([List.replicate 3000 65, List.replicate 3000 66].foldl writeChunk
      ([] : List UInt8)).length ≤ 4096 :=
  ⟨by decide,
   (outputBuffer_bounded [] (by decide) [List.replicate 3000 65, List.replicate 3000 66]).1⟩

/-- C6 (amended): every failing Start/Stop call leaves the manager state
unchanged; in particular a failed Start on an existing record leaves its
running flag at its prior value — false except for an AlreadyRunning failure,
where it remains true. -/
theorem failedOps_preserveState (m : Manager) (name : String) (lr : LaunchResult)
    (kr : Option String) :
    ((startApp m name lr).2.isSome → (startApp m name lr).1 = m) ∧
    ((stopApp m name kr).2.isSome → (stopApp m name kr).1 = m) ∧
    (∀ app, mapGet m name = some app → (startApp m name lr).2.isSome →
      (startApp m name lr).2 ≠ some (AppError.alreadyRunning name) →
      mapGet (startApp m name lr).1 name = some app ∧ app.running = false) := by
  refine ⟨?_, ?_, ?_⟩
  · cases hget : mapGet m name with
    | none =>
      intro _
      simp [startApp, hget]
    | some app =>
      by_cases hrun : app.running
      · intro _
        simp [startApp, hget, hrun]
      · cases lr with
        | ok hd =>
          intro hs
          exfalso
          simp [startApp, hget, hrun] at hs
        | stdoutPipeErr e =>
          intro _
          simp [startApp, hget, hrun]
        | stderrPipeErr e =>
          intro _
          simp [startApp, hget, hrun]
        | startErr e =>
          intro _
          simp [startApp, hget, hrun]
  · cases hget : mapGet m name with
    | none =>
      intro _
      simp [stopApp, hget]
    | some app =>
      by_cases hcond : app.running = false ∨ app.cmd = none
      · intro _
        simp [stopApp, hget, hcond]
      · cases kr with
        | some e =>
          intro _
          simp [stopApp, hget, hcond]
        | none =>
          intro hs
          exfalso
          simp [stopApp, hget, hcond] at hs
  · intro app hget hs hne
    by_cases hrun : app.running
    · exact absurd (by simp [startApp, hget, hrun]) hne
    · have hr : app.running = false := by
        simpa using hrun
      cases lr with
      | ok hd =>
        exfalso
        simp [startApp, hget, hrun] at hs
      | stdoutPipeErr e => exact ⟨by simp [startApp, hget, hrun], hr⟩
      | stderrPipeErr e => exact ⟨by simp [startApp, hget, hrun], hr⟩
      | startErr e => exact ⟨by simp [startApp, hget, hrun], hr⟩

/-- Witness for C6: an AlreadyRunning failure, a NotRunning failure, and a
spawn failure all leave `mRun` unchanged; the spawn failure leaves the stopped
record with running = false. -/
theorem failedOps_preserveState_witness :
    (startApp mRun "a" (LaunchResult.ok 2)).1 = mRun ∧
    (stopApp mRun "b" none).1 = mRun ∧
    mapGet (startApp mRun "b" (LaunchResult.startErr "exec format error")).1 "b" =
      some appStopped ∧
    appStopped.running = false := by
  refine ⟨?_, ?_, ?_, ?_⟩
  · exact (failedOps_preserveState mRun "a" (LaunchResult.ok 2) none).1 (by decide)
  · exact (failedOps_preserveState mRun "b" (LaunchResult.ok 2) none).2.1 (by decide)
  · exact ((failedOps_preserveState mRun "b" (LaunchResult.startErr "exec format error")
      none).2.2 appStopped (by decide) (by decide) (by decide)).1
  · exact ((failedOps_preserveState mRun "b" (LaunchResult.startErr "exec format error")
      none).2.2 appStopped (by decide) (by decide) (by decide)).2

/-- Counterexample for C6 as stated: Start on the already-running app `"a"`
fails, yet the record's running flag is true afterwards, not false. -/
theorem startApp_alreadyRunning_cex :
    (startApp mRun "a" (LaunchResult.ok 2)).2.isSome = true ∧
    (mapGet (startApp mRun "a" (LaunchResult.ok 2)).1 "a").map AppState.running =
      some true := by
  decide

/-- C7: on one tick of the health-check loop, every record whose running flag
is true receives the health probe's result, every record whose running flag is
false is forced to "Stopped" with a refreshed timestamp, and the requests
issued are exactly those of the running apps (`tickCalls`, which contributes
nothing for a non-running app). -/
theorem runHealthTick_contract (m : Manager) (probe : String → ProbeResult)
    (now : Nat) (hnd : (m.map Prod.fst).Nodup) :
    (∀ name app, (name, app) ∈ m →
      mapGet (runHealthTick m probe now).1 name =
        some (if app.running then (checkAppHealth app (probe app.config.healthURL) now).1
              else { app with healthStatus := "Stopped", healthLastCheck := now })) ∧
    (runHealthTick m probe now).2 = tickCalls probe now m := by
  constructor
  · intro name app hmem
    exact tickFold_mem probe now m (m, []) name app hnd hmem
  · simpa [runHealthTick] using tickFold_calls probe now m (m, [])

/-- Witness for C7 on `mRun`: the running app `"a"` gets its probe result, the
stopped app `"b"` is forced to "Stopped" at time 9, and only `"a"`'s URL is
fetched. -/
theorem runHealthTick_contract_witness :
    mapGet (runHealthTick mRun probeOK 9).1 "a" =
      some (checkAppHealth appRunning (probeOK appRunning.config.healthURL) 9).1 ∧
    mapGet (runHealthTick mRun probeOK 9).1 "b" =
      some { appStopped with healthStatus := "Stopped", healthLastCheck := 9 } ∧
    (runHealthTick mRun probeOK 9).2 = tickCalls probeOK 9 mRun := by
  have h := runHealthTick_contract mRun probeOK 9 (by decide)
  refine ⟨?_, ?_, h.2⟩
  · have ha := h.1 "a" appRunning (by decide)
    rw [ha]
    decide
  · have hb := h.1 "b" appStopped (by decide)
    rw [hb]
    decide

/-- C8: on a buffer whose content splits on newline into more than 50 pieces,
the output handler returns exactly the trailing 50 newline-delimited lines of
the buffer content, in their original order. -/
theorem getAppOutput_last50 (output : List UInt8)
    (h : 50 < (splitLines output).length) :
    splitLines (getAppOutput output) =
      (splitLines output).drop ((splitLines output).length - 50) ∧
    (splitLines (getAppOutput output)).length = 50 := by
  have hout : getAppOutput output =
      joinLines ((splitLines output).drop ((splitLines output).length - 50)) := by
    simp [getAppOutput, h]
  have hlen : ((splitLines output).drop ((splitLines output).length - 50)).length = 50 := by
    simp only [List.length_drop]
    omega
  have hne : (splitLines output).drop ((splitLines output).length - 50) ≠ [] := by
    intro hnil
    rw [hnil] at hlen
    simp at hlen
  have hnl : ∀ p ∈ (splitLines output).drop ((splitLines output).length - 50),
      (10 : UInt8) ∉ p :=
    fun p hp => newline_not_mem_splitLines output p (List.mem_of_mem_drop hp)
  constructor
  · rw [hout, splitLines_joinLines _ hne hnl]
  · rw [hout, splitLines_joinLines _ hne hnl]
    exact hlen

/-- Witness for C8: a buffer of 60 one-byte lines yields exactly its last 50
lines. -/
theorem getAppOutput_last50_witness :
    50 < (splitLines output60).length ∧
    splitLines (getAppOutput output60) =
      (splitLines output60).drop ((splitLines output60).length - 50) ∧
    (splitLines (getAppOutput output60)).length = 50 := by
  refine ⟨by decide, ?_, ?_⟩
  · exact (getAppOutput_last50 output60 (by decide)).1
  · exact (getAppOutput_last50 output60 (by decide)).2

/-- C9 (amended): `NewManager` cannot fail on duplicate names; instead the
later config silently overwrites the earlier one, so each name maps to the
record built from the last config bearing that name. -/
theorem newManager_lastConfigWins (configs : List AppConfig) (name : String) :
    mapGet (newManager configs) name =
      (configs.reverse.find? (fun c => c.name == name)).map initialAppState := by
  have h := mapGet_newManagerFold name configs []
  simpa [newManager, mapGet] using h

/-- Counterexample for C9 as stated: constructing the manager from two configs
sharing the name "a" produces a manager (no construction error exists in
`NewManager`'s signature) that silently holds a single record, the one of the
later config. -/
theorem newManager_duplicate_cex :
    newManager [cfgDup1, cfgDup2] = [("a", initialAppState cfgDup2)] ∧
    (newManager [cfgDup1, cfgDup2]).length = 1 := by
  decide
